import Mathlib

/-!
Verification of the sql-to-rest translator: a shallow embedding of the
processor (SQL parse tree → `Statement` IR) and the HTTP renderer
(`Statement` → `HttpRequest`), with theorems checking the specification's
claims against the embedded code.

Embedded source:
 * `renderers/http.ts` — `renderHttp`, `formatSelect`, `formatInsert`,
   `formatUpdate`, `formatDelete`, `renderFilterRoot`;
 * `processor/index.ts` — `processSql`, `processStatement`;
 * `processor/insert.ts` — `processInsertStatement`;
 * `processor/update.ts` — `processUpdateStatement`, `validateBasicFilters`;
 * `processor/delete.ts` — `processDeleteStatement`, `validateBasicFilters`.

Helpers that live in files not available here (`renderers/util.ts`,
`processor/filter.ts`, `processor/select.ts`) are modelled from the spec and
carry a doc comment saying so.
-/

namespace SqlToRest

/-- Scalar atom: string, integer, boolean or null (floats are carried as their
source string, as in the processors which push `fval` verbatim). -/
inductive Scalar where
  | s (v : String)
  | i (v : Int)
  | b (v : Bool)
  | null
deriving DecidableEq, Repr

/-- Column filter operators of the IR (`ColumnFilter.operator`). -/
inductive FilterOp where
  | eq | neq | gt | gte | lt | lte
  | like | ilike | «is» | «in»
  | fts | plfts | phfts | wfts
  | cs | cd | ov | sl | sr | nxr | nxl | adj
deriving DecidableEq, Repr

def FilterOp.render : FilterOp → String
  | .eq => "eq" | .neq => "neq" | .gt => "gt" | .gte => "gte"
  | .lt => "lt" | .lte => "lte" | .like => "like" | .ilike => "ilike"
  | .«is» => "is" | .«in» => "in" | .fts => "fts" | .plfts => "plfts"
  | .phfts => "phfts" | .wfts => "wfts" | .cs => "cs" | .cd => "cd"
  | .ov => "ov" | .sl => "sl" | .sr => "sr" | .nxr => "nxr"
  | .nxl => "nxl" | .adj => "adj"

/-- Logical filter operators (`LogicalFilter.operator`). -/
inductive LogicalOp where
  | and
  | or
deriving DecidableEq, Repr

def LogicalOp.render : LogicalOp → String
  | .and => "and"
  | .or => "or"

/-- A column filter's value: a literal atom or a list of atoms (for `in`). -/
inductive FilterValue where
  | atom (a : Scalar)
  | list (l : List Scalar)
deriving DecidableEq, Repr

/-- The `Filter` tree of the IR: `ColumnFilter | LogicalFilter`, each carrying
a `negate` flag. -/
inductive Filter where
  | column (column : String) (operator : FilterOp) (negate : Bool) (value : FilterValue)
  | logical (operator : LogicalOp) (negate : Bool) (values : List Filter)
deriving Repr

/-- `Target` of a `Select`: column projection, embedded resource, or
aggregate. -/
inductive Target where
  | column (column : String) («alias» : Option String) (cast : Option String)
  | resource (name : String) (targets : List Target)
  | agg (fn : String) (column : String) («alias» : Option String)
deriving Repr

/-- A `Sort` entry of a `Select`. -/
inductive SortDirection where
  | asc
  | desc
deriving DecidableEq, Repr

def SortDirection.render : SortDirection → String
  | .asc => "asc"
  | .desc => "desc"

inductive SortNulls where
  | first
  | last
deriving DecidableEq, Repr

def SortNulls.render : SortNulls → String
  | .first => "first"
  | .last => "last"

structure «Sort» where
  column : String
  direction : Option SortDirection
  nulls : Option SortNulls
deriving Repr

/-- `limit` of a `Select`: optional count and offset, non-negative. -/
structure Limit where
  count : Option Nat
  offset : Option Nat
deriving Repr

/-- The `Select` IR record. -/
structure Select where
  «from» : String
  targets : List Target
  filter : Option Filter
  sorts : Option (List «Sort»)
  limit : Option Limit
deriving Repr

/-- The `Insert` IR record. -/
structure Insert where
  into : String
  columns : List String
  values : List (List Scalar)
  returning : Option (List String)
deriving Repr

/-- The `Update` IR record; `set` is an ordered column → atom mapping. -/
structure Update where
  table : String
  set : List (String × Scalar)
  filter : Option Filter
  returning : Option (List String)
deriving Repr

/-- The `Delete` IR record. -/
structure Delete where
  «from» : String
  filter : Option Filter
  returning : Option (List String)
deriving Repr

/-- The `Statement` IR: tagged sum of the four statement kinds. -/
inductive Statement where
  | select (s : Select)
  | insert (i : Insert)
  | update (u : Update)
  | delete (d : Delete)
deriving Repr

/-- Typed errors thrown by the pipeline (`errors.ts`). Only the message-bearing
kinds the processors raise are needed. -/
inductive PErr where
  | unsupported (message : String)
  | unimplemented (message : String)
deriving DecidableEq, Repr

end SqlToRest

namespace SqlToRest

/-! ## Rendering helpers modelled from the spec (`renderers/util.ts`) -/

/-- Rendering of a scalar atom inside filter values: strings verbatim,
integers in decimal, booleans and null as bare keywords. -/
def Scalar.render : Scalar → String
  | .s v => v
  | .i v => toString v
  | .b v => if v then "true" else "false"
  | .null => "null"

/-- Rendering of a `ColumnFilter` value: a bare atom, or `(v1,v2,…)` for a
list (the `in` operator). -/
def FilterValue.render : FilterValue → String
  | .atom a => a.render
  | .list l => "(" ++ String.intercalate "," (l.map Scalar.render) ++ ")"

def maybeNot (negate : Bool) : String := if negate then "not." else ""

mutual
/-- Modelled from the spec: nested rendering of a filter inside a logical
parameter value (`renderers/util.ts` is not under the sources). A column
child renders as `col.[not.]op.literal`; a logical child renders as
`[not.]and(…)` / `[not.]or(…)` — nested `and`/`or` never flatten. -/
def renderNestedFilter : Filter → String
  | .column column operator negate value =>
    column ++ "." ++ maybeNot negate ++ operator.render ++ "." ++ value.render
  | .logical operator negate values =>
    maybeNot negate ++ operator.render ++ "(" ++ renderNestedFilterList values ++ ")"

/-- Comma-joined nested rendering of a list of filters. -/
def renderNestedFilterList : List Filter → String
  | [] => ""
  | [f] => renderNestedFilter f
  | f :: g :: fs => renderNestedFilter f ++ "," ++ renderNestedFilterList (g :: fs)
end

/-- Modelled from the spec: `renderFilter` (`renderers/util.ts` is not under
the sources) returns one `(key, value)` query-parameter pair for a filter:
for a ColumnFilter the key is the column name and the value `[not.]op.literal`;
for a LogicalFilter the key is `and`/`or` and the value `[not.](children)`. -/
def renderFilter : Filter → String × String
  | .column column operator negate value =>
    (column, maybeNot negate ++ operator.render ++ "." ++ value.render)
  | .logical operator negate values =>
    (operator.render, maybeNot negate ++ "(" ++ renderNestedFilterList values ++ ")")

mutual
/-- Modelled from the spec: `renderTargets` (`renderers/util.ts` is not under
the sources) joins targets comma-separated; embeds render as
`name(child,child)`, aggregates as `col.fn()`, aliases as `alias:…`, casts
as `…::type`. -/
def renderTarget : Target → String
  | .column column a cast =>
    (match a with | some x => x ++ ":" | none => "")
      ++ column
      ++ (match cast with | some t => "::" ++ t | none => "")
  | .resource name targets => name ++ "(" ++ renderTargetList targets ++ ")"
  | .agg fn column a =>
    (match a with | some x => x ++ ":" | none => "") ++ column ++ "." ++ fn ++ "()"

def renderTargetList : List Target → String
  | [] => ""
  | [t] => renderTarget t
  | t :: u :: ts => renderTarget t ++ "," ++ renderTargetList (u :: ts)
end

def renderTargets (targets : List Target) : String := renderTargetList targets

/-- Hex digit for percent-encoding. -/
def hexDigitChar (n : Nat) : Char :=
  if n < 10 then Char.ofNat (48 + n) else Char.ofNat (55 + n)

/-- UTF-8 bytes of a code point. -/
def utf8Bytes (n : Nat) : List Nat :=
  if n < 128 then [n]
  else if n < 2048 then [192 + n / 64, 128 + n % 64]
  else if n < 65536 then [224 + n / 4096, 128 + (n / 64) % 64, 128 + n % 64]
  else [240 + n / 262144, 128 + (n / 4096) % 64, 128 + (n / 64) % 64, 128 + n % 64]

/-- Characters left unencoded: the URL-unreserved set plus the PostgREST
filter syntax characters (comma, parentheses, dot, colon, star). -/
def isUriSafe (c : Char) : Bool :=
  c.isAlphanum || c = '-' || c = '_' || c = '.' || c = '~' ||
    c = ',' || c = '(' || c = ')' || c = ':' || c = '*'

/-- Modelled from the spec: `uriEncode` (`renderers/util.ts` is not under the
sources) percent-encodes every character outside the safe set. -/
def uriEncode (s : String) : String :=
  String.join (s.toList.map fun c =>
    if isUriSafe c then String.singleton c
    else String.join ((utf8Bytes c.toNat).map fun b =>
      "%" ++ String.singleton (hexDigitChar (b / 16)) ++ String.singleton (hexDigitChar (b % 16))))

/-- Modelled from the spec: `uriEncodeParams` (`renderers/util.ts` is not
under the sources) joins `key=value` pairs with `&`, encoding both sides. -/
def uriEncodeParams (ps : List (String × String)) : String :=
  String.intercalate "&" (ps.map fun p => uriEncode p.1 ++ "=" ++ uriEncode p.2)

/-! ## `URLSearchParams`, `HttpRequest` and the renderer (`renderers/http.ts`) -/

/-- `URLSearchParams.append`: adds the pair at the end. -/
def appendParam (ps : List (String × String)) (k v : String) : List (String × String) :=
  ps ++ [(k, v)]

/-- Removes every pair with the given key (helper for `setParam`). -/
def removeParam : List (String × String) → String → List (String × String)
  | [], _ => []
  | p :: rest, k => if p.1 = k then removeParam rest k else p :: removeParam rest k

/-- `URLSearchParams.set`: replaces the value at the first occurrence of the
key and removes further occurrences, or appends when the key is absent. -/
def setParam : List (String × String) → String → String → List (String × String)
  | [], k, v => [(k, v)]
  | p :: rest, k, v => if p.1 = k then (k, v) :: removeParam rest k else p :: setParam rest k v

/-- JavaScript object assignment `obj[k] = v` on an ordered record: replaces
in place when the key exists, appends otherwise. -/
def assocSet {α : Type} : List (String × α) → String → α → List (String × α)
  | [], k, v => [(k, v)]
  | e :: rest, k, v => if e.1 = k then (k, v) :: rest else e :: assocSet rest k v

inductive Method where
  | get | post | patch | delete
deriving DecidableEq, Repr

/-- A JSON body: a single object of column → scalar (a missing value models
JavaScript `undefined` for a row shorter than the column list), or an array
of such objects. -/
inductive Body where
  | obj (entries : List (String × Option Scalar))
  | arr (rows : List (List (String × Option Scalar)))
deriving Repr

structure HttpRequest where
  method : Method
  path : String
  params : List (String × String)
  body : Option Body
deriving Repr

/-- The `fullPath` getter shared by all four formatters: `path` when `params`
is empty, otherwise `path + "?" + encoded params`. -/
def HttpRequest.fullPath (r : HttpRequest) : String :=
  if r.params.length > 0 then r.path ++ "?" ++ uriEncodeParams r.params
  else r.path

mutual
/-- `renderFilterRoot` (`renderers/http.ts:97`): a non-negated logical `and`
is flattened — each child is emitted recursively; any other filter is
appended as the single pair produced by `renderFilter`. -/
def renderFilterRoot (params : List (String × String)) (filter : Filter) :
    List (String × String) :=
  match filter with
  | .logical .and false values => renderFilterRootList params values
  | f => appendParam params (renderFilter f).1 (renderFilter f).2

/-- The `for (const subFilter of filter.values)` loop of `renderFilterRoot`. -/
def renderFilterRootList (params : List (String × String)) :
    List Filter → List (String × String)
  | [] => params
  | f :: fs => renderFilterRootList (renderFilterRoot params f) fs
end

/-- The guard of `formatSelect` on the `select` parameter: emit unless the
first target is a `column-target` on `*` and there is exactly one target. -/
def selectParamNeeded : List Target → Bool
  | [] => false
  | firstTarget :: rest =>
    (match firstTarget with
     | .column column _ _ => column != "*"
     | _ => true)
    || (firstTarget :: rest).length != 1

/-- One ORDER BY entry as rendered by `formatSelect`. -/
def renderSort (sort : «Sort») : String :=
  let value := sort.column
  let value :=
    match sort.direction with
    | some d => value ++ "." ++ d.render
    | none => value
  match sort.nulls with
  | some n => value ++ ".nulls" ++ n.render
  | none => value

/-- `formatSelect` (`renderers/http.ts:30`). -/
def formatSelect (select : Select) : HttpRequest :=
  let params : List (String × String) := []
  let params :=
    if selectParamNeeded select.targets then
      setParam params "select" (renderTargets select.targets)
    else params
  let params :=
    match select.filter with
    | some f => renderFilterRoot params f
    | none => params
  let params :=
    match select.sorts with
    | some sorts =>
      let columns := sorts.map renderSort
      if columns.length > 0 then setParam params "order" (String.intercalate "," columns)
      else params
    | none => params
  let params :=
    match select.limit with
    | some limit =>
      let params :=
        match limit.count with
        | some n => setParam params "limit" (toString n)
        | none => params
      match limit.offset with
      | some n => setParam params "offset" (toString n)
      | none => params
    | none => params
  { method := .get, path := "/" ++ select.«from», params := params, body := none }

/-- The row → object conversion of `formatInsert`: `obj[col] = row[index]`
for each column in order. -/
def rowToObj (columns : List String) (row : List Scalar) : List (String × Option Scalar) :=
  columns.enum.foldl (fun obj p => assocSet obj p.2 row[p.1]?) []

/-- `formatInsert` (`renderers/http.ts:163`). -/
def formatInsert (insert : Insert) : HttpRequest :=
  let body := insert.values.map (rowToObj insert.columns)
  let params : List (String × String) := []
  let params :=
    match insert.returning with
    | some returning =>
      if returning.length > 0 then setParam params "select" (String.intercalate "," returning)
      else params
    | none => params
  { method := .post
    path := "/" ++ insert.into
    params := params
    body := some (match body with
      | [row] => .obj row
      | rows => .arr rows) }

/-- `formatUpdate` (`renderers/http.ts:197`). -/
def formatUpdate (update : Update) : HttpRequest :=
  let params : List (String × String) := []
  let params :=
    match update.returning with
    | some returning =>
      if returning.length > 0 then setParam params "select" (String.intercalate "," returning)
      else params
    | none => params
  let params :=
    match update.filter with
    | some f => renderFilterRoot params f
    | none => params
  { method := .patch
    path := "/" ++ update.table
    params := params
    body := some (.obj (update.set.map fun p => (p.1, some p.2))) }

/-- `formatDelete` (`renderers/http.ts:227`). -/
def formatDelete (deleteStmt : Delete) : HttpRequest :=
  let params : List (String × String) := []
  let params :=
    match deleteStmt.returning with
    | some returning =>
      if returning.length > 0 then setParam params "select" (String.intercalate "," returning)
      else params
    | none => params
  let params :=
    match deleteStmt.filter with
    | some f => renderFilterRoot params f
    | none => params
  { method := .delete
    path := "/" ++ deleteStmt.«from»
    params := params
    body := none }

/-- `renderHttp` (`renderers/http.ts:17`). -/
def renderHttp : Statement → HttpRequest
  | .select s => formatSelect s
  | .insert i => formatInsert i
  | .update u => formatUpdate u
  | .delete d => formatDelete d

end SqlToRest

namespace SqlToRest

/-! ## Processors (`processor/*.ts`) -/

/-- The `Relations` record the UPDATE/DELETE processors build for the primary
table before calling the filter walker. -/
structure Relations where
  primary : String

/-- Modelled from the spec: `processWhereClause` (`processor/filter.ts` is not
under the sources) lowers a WHERE parse tree into a `Filter` tree. The spec
leaves the parse-tree types to the implementer (§6), so the embedded parse
nodes carry the WHERE clause already classified as a `Filter`; the walker
forwards it. -/
def processWhereClause (whereClause : Filter) (_relations : Relations) : Filter :=
  whereClause

/-- The basic operators accepted by UPDATE/DELETE WHERE validation. -/
def allowedBasicOperators : List FilterOp := [.eq, .neq, .gt, .gte, .lt, .lte]

mutual
/-- `validateBasicFilters` (`processor/update.ts:111`): rejects any
ColumnFilter whose operator is not basic; recurses into logical filters. -/
def validateBasicFiltersUpdate : Filter → Except PErr Unit
  | .column _ operator _ _ =>
    if allowedBasicOperators.contains operator then .ok ()
    else .error (.unsupported
      "UPDATE WHERE clause only supports basic operators: eq, neq, gt, gte, lt, lte")
  | .logical _ _ values => validateBasicFiltersUpdateList values

def validateBasicFiltersUpdateList : List Filter → Except PErr Unit
  | [] => .ok ()
  | f :: fs => do
    validateBasicFiltersUpdate f
    validateBasicFiltersUpdateList fs
end

mutual
/-- `validateBasicFilters` (`processor/delete.ts`): identical walk with the
DELETE error message. -/
def validateBasicFiltersDelete : Filter → Except PErr Unit
  | .column _ operator _ _ =>
    if allowedBasicOperators.contains operator then .ok ()
    else .error (.unsupported
      "DELETE WHERE clause only supports basic operators: eq, neq, gt, gte, lt, lte")
  | .logical _ _ values => validateBasicFiltersDeleteList values

def validateBasicFiltersDeleteList : List Filter → Except PErr Unit
  | [] => .ok ()
  | f :: fs => do
    validateBasicFiltersDelete f
    validateBasicFiltersDeleteList fs
end

/-! ### Parse-tree shapes (per spec §6 the concrete types are
implementer-chosen; these mirror the fields the processors read). -/

/-- An `A_Const` node: tagged constant, or a tag outside the handled set. -/
inductive RawConst where
  | sval (v : String)
  | ival (v : Int)
  | fval (v : String)
  | boolval (v : Bool)
  | null
  | otherConst
deriving Repr

/-- A value node: a constant or anything else (expression, subquery, …). -/
inductive RawVal where
  | aConst (c : RawConst)
  | otherVal
deriving Repr

/-- A `ColumnRef` field: a `String` name segment or some other node
(e.g. `A_Star`). -/
inductive RawField where
  | strField (sval : String)
  | nonString
deriving Repr

/-- A RETURNING target's `val`: a `ColumnRef` or some other expression. -/
inductive RawRetVal where
  | columnRef (fields : List RawField)
  | otherVal
deriving Repr

/-- A RETURNING list entry: a `ResTarget` wrapper or some other node. -/
inductive RawRetTarget where
  | resTarget (val : RawRetVal)
  | other
deriving Repr

/-- An INSERT column-list entry: `ResTarget` (with optional name) or other. -/
inductive RawInsertCol where
  | resTarget (name : Option String)
  | other
deriving Repr

/-- The inner `SelectStmt` of an INSERT: its `valuesLists`, when present. -/
structure RawInsertSelect where
  valuesLists : Option (List (List RawVal))
deriving Repr

/-- The fields of an `InsertStmt` node read by the processor. -/
structure InsertStmtRaw where
  relation : Option String
  cols : Option (List RawInsertCol)
  selectStmt : Option RawInsertSelect
  returningList : Option (List RawRetTarget)
  onConflictClause : Bool
deriving Repr

/-- An UPDATE SET-list entry: `ResTarget` with optional name and a value. -/
inductive RawSetTarget where
  | resTarget (name : Option String) (val : RawVal)
  | other
deriving Repr

/-- The fields of an `UpdateStmt` node read by the processor. -/
structure UpdateStmtRaw where
  relation : Option String
  targetList : Option (List RawSetTarget)
  whereClause : Option Filter
  returningList : Option (List RawRetTarget)
deriving Repr

/-- The fields of a `DeleteStmt` node read by the processor. -/
structure DeleteStmtRaw where
  relation : Option String
  whereClause : Option Filter
  returningList : Option (List RawRetTarget)
deriving Repr

/-- JavaScript `Array.prototype.join('.')`. -/
def joinDot : List String → String
  | [] => ""
  | [s] => s
  | s :: t :: rest => s ++ "." ++ joinDot (t :: rest)

/-- Worker for `splitDot`: the accumulator holds the current piece
reversed. -/
def splitDotAux : List Char → List Char → List String
  | [], acc => [String.mk acc.reverse]
  | c :: cs, acc =>
    if c = '.' then String.mk acc.reverse :: splitDotAux cs []
    else splitDotAux cs (c :: acc)

/-- JavaScript `String.prototype.split('.')`: cuts at every dot and always
returns at least one (possibly empty) piece. -/
def splitDot (s : String) : List String := splitDotAux s.toList []

/-- The column-name extraction applied to each RETURNING `ColumnRef`:
map fields to their `String` segment (or `""`), join with `.`, split on `.`,
take the last piece (`pop`). -/
def extractColumnName (fields : List RawField) : String :=
  let joined := joinDot
    (fields.map fun f => match f with | .strField s => s | .nonString => "")
  (splitDot joined).getLastD ""

/-- The RETURNING loop shared verbatim by the INSERT/UPDATE/DELETE
processors: each `ResTarget`/`ColumnRef` entry contributes its extracted
column name when that name is non-empty (falsy names are skipped); any other
entry shape raises `UnsupportedError`. -/
def processReturningEntries : List RawRetTarget → Except PErr (List String)
  | [] => .ok []
  | .resTarget (.columnRef fields) :: rest => do
    let columnName := extractColumnName fields
    let more ← processReturningEntries rest
    if columnName ≠ "" then .ok (columnName :: more) else .ok more
  | .resTarget .otherVal :: _ =>
    .error (.unsupported "RETURNING clause only supports simple column names")
  | .other :: _ =>
    .error (.unsupported "RETURNING clause only supports simple column names")

/-- `if (stmt.returningList) { returning = [] … }`. -/
def processReturningList : Option (List RawRetTarget) → Except PErr (Option (List String))
  | none => .ok none
  | some lst => do
    let returning ← processReturningEntries lst
    .ok (some returning)

/-- The INSERT column-list loop: push each `ResTarget` name that is present;
a non-`ResTarget` entry raises `UnsupportedError`. -/
def processInsertCols : List RawInsertCol → Except PErr (List String)
  | [] => .ok []
  | .resTarget (some name) :: rest => do
    let more ← processInsertCols rest
    .ok (name :: more)
  | .resTarget none :: rest => processInsertCols rest
  | .other :: _ =>
    .error (.unsupported "INSERT column specification must be a simple column name")

/-- Lowering of one VALUES row: each item must be an `A_Const` of a handled
tag; `fval` keeps its source string. -/
def processValuesRow : List RawVal → Except PErr (List Scalar)
  | [] => .ok []
  | .aConst c :: rest => do
    let scalar ←
      match c with
      | .sval v => Except.ok (Scalar.s v)
      | .ival v => Except.ok (Scalar.i v)
      | .fval v => Except.ok (Scalar.s v)
      | .boolval v => Except.ok (Scalar.b v)
      | .null => Except.ok Scalar.null
      | .otherConst => Except.error (PErr.unsupported "Unsupported constant type in INSERT values")
    let more ← processValuesRow rest
    .ok (scalar :: more)
  | .otherVal :: _ =>
    .error (.unsupported "INSERT values must be constants (no expressions or subqueries)")

/-- The outer VALUES loop of the INSERT processor. -/
def processValuesLists : List (List RawVal) → Except PErr (List (List Scalar))
  | [] => .ok []
  | row :: rest => do
    let rowValues ← processValuesRow row
    let more ← processValuesLists rest
    .ok (rowValues :: more)

/-- `processInsertStatement` (`processor/insert.ts`). -/
def processInsertStatement (stmt : InsertStmtRaw) : Except PErr Insert := do
  let tableName ←
    match stmt.relation with
    | none => Except.error (PErr.unsupported "INSERT statement must specify a table")
    | some r => Except.ok r
  let columns ←
    match stmt.cols with
    | some cols => processInsertCols cols
    | none => Except.ok []
  let values ←
    match stmt.selectStmt with
    | some sel =>
      match sel.valuesLists with
      | some lists => processValuesLists lists
      | none => Except.error (PErr.unsupported "INSERT ... SELECT statements are not supported")
    | none => Except.ok ([] : List (List Scalar))
  let returning ← processReturningList stmt.returningList
  if stmt.onConflictClause then
    .error (.unsupported "INSERT ... ON CONFLICT (upsert) is not supported")
  else
    .ok { into := tableName, columns := columns, values := values, returning := returning }

/-- The UPDATE SET-clause loop: ordered column → constant mapping built with
JavaScript object assignment; non-constant values and malformed targets raise
`UnsupportedError`. -/
def processSetTargets : List RawSetTarget → List (String × Scalar) →
    Except PErr (List (String × Scalar))
  | [], setClause => .ok setClause
  | .resTarget name val :: rest, setClause => do
    let columnName ←
      match name with
      | none => Except.error (PErr.unsupported "UPDATE SET clause must specify column names")
      | some n => Except.ok n
    let scalar ←
      match val with
      | .aConst c =>
        match c with
        | .sval v => Except.ok (Scalar.s v)
        | .ival v => Except.ok (Scalar.i v)
        | .fval v => Except.ok (Scalar.s v)
        | .boolval v => Except.ok (Scalar.b v)
        | .null => Except.ok Scalar.null
        | .otherConst => Except.error (PErr.unsupported "Unsupported constant type in UPDATE SET clause")
      | .otherVal =>
        Except.error (PErr.unsupported
          "UPDATE SET clause only supports constant values (no expressions or subqueries)")
    processSetTargets rest (assocSet setClause columnName scalar)
  | .other :: _, _ =>
    .error (.unsupported "UPDATE SET clause must be simple column assignments")

/-- `processUpdateStatement` (`processor/update.ts:6`). -/
def processUpdateStatement (stmt : UpdateStmtRaw) : Except PErr Update := do
  let tableName ←
    match stmt.relation with
    | none => Except.error (PErr.unsupported "UPDATE statement must specify a table")
    | some r => Except.ok r
  let targetList ←
    match stmt.targetList with
    | none => Except.error (PErr.unsupported "UPDATE statement must have a SET clause")
    | some ts => Except.ok ts
  let setClause ← processSetTargets targetList []
  let filter ←
    match stmt.whereClause with
    | some w => do
      let f := processWhereClause w { primary := tableName }
      validateBasicFiltersUpdate f
      Except.ok (some f)
    | none => Except.ok (none : Option Filter)
  let returning ← processReturningList stmt.returningList
  .ok { table := tableName, set := setClause, filter := filter, returning := returning }

/-- `processDeleteStatement` (`processor/delete.ts`). -/
def processDeleteStatement (stmt : DeleteStmtRaw) : Except PErr Delete := do
  let tableName ←
    match stmt.relation with
    | none => Except.error (PErr.unsupported "DELETE statement must specify a table")
    | some r => Except.ok r
  let filter ←
    match stmt.whereClause with
    | some w => do
      let f := processWhereClause w { primary := tableName }
      validateBasicFiltersDelete f
      Except.ok (some f)
    | none => Except.ok (none : Option Filter)
  let returning ← processReturningList stmt.returningList
  .ok { «from» := tableName, filter := filter, returning := returning }

/-- The fields of a `SelectStmt` node, carried already classified (spec §6
leaves the parse-tree types to the implementer). -/
structure SelectStmtRaw where
  relname : Option String
  targets : List Target
  whereClause : Option Filter
  sorts : Option (List «Sort»)
  limit : Option Limit
deriving Repr

/-- Modelled from the spec: `processSelectStatement` (`processor/select.ts`
is not under the sources) requires exactly one primary relation and builds
the `Select` IR from the classified parse fields. -/
def processSelectStatement (stmt : SelectStmtRaw) : Except PErr Select :=
  match stmt.relname with
  | none => .error (.unsupported "SELECT statement must specify a table")
  | some name =>
    .ok { «from» := name, targets := stmt.targets, filter := stmt.whereClause,
          sorts := stmt.sorts, limit := stmt.limit }

/-- A parse-tree statement node, tagged by kind; `other` carries the raw tag
name (e.g. `"CreateStmt"`). -/
inductive RawStmt where
  | selectStmt (raw : SelectStmtRaw)
  | insertStmt (raw : InsertStmtRaw)
  | updateStmt (raw : UpdateStmtRaw)
  | deleteStmt (raw : DeleteStmtRaw)
  | explainStmt
  | other (tag : String)
deriving Repr

/-- `stmtType.replace(/Stmt$/, '')`. -/
def stripStmtTag (tag : String) : String :=
  if tag.endsWith "Stmt" then tag.dropRight 4 else tag

/-- `processStatement` (`processor/index.ts:53`): dispatch on the node tag. -/
def processStatement : RawStmt → Except PErr Statement
  | .selectStmt raw => (processSelectStatement raw).map Statement.select
  | .insertStmt raw => (processInsertStatement raw).map Statement.insert
  | .updateStmt raw => (processUpdateStatement raw).map Statement.update
  | .deleteStmt raw => (processDeleteStatement raw).map Statement.delete
  | .explainStmt =>
    .error (.unimplemented "Explain statements are not yet implemented by the translator")
  | .other tag =>
    .error (.unsupported (stripStmtTag tag ++ " statements are not supported"))

/-- `processSql` (`processor/index.ts:22`) after a successful parse: the
parsed statement list is demanded to be a singleton, whose statement is then
processed. -/
def processSql (stmts : List RawStmt) : Except PErr Statement :=
  if stmts.length = 0 then
    .error (.unsupported "Expected a statement, but received none")
  else if stmts.length > 1 then
    .error (.unsupported "Expected a single statement, but received multiple")
  else
    match stmts with
    | s :: _ => processStatement s
    | [] => .error (.unsupported "Expected a statement, but received none")

end SqlToRest

namespace SqlToRest

/-! ## Helper lemmas -/

mutual
/-- The flattening units of a filter at the root: a non-negated `and`
contributes its children's units; any other filter is one unit. -/
def rootUnits : Filter → List Filter
  | .logical .and false values => rootUnitsList values
  | f => [f]

def rootUnitsList : List Filter → List Filter
  | [] => []
  | f :: fs => rootUnits f ++ rootUnitsList fs
end

mutual
theorem renderFilterRoot_units (ps : List (String × String)) (f : Filter) :
    renderFilterRoot ps f = ps ++ (rootUnits f).map renderFilter := by
  cases f with
  | column c op neg v => simp [renderFilterRoot, rootUnits, appendParam]
  | logical op neg values =>
    cases op with
    | and =>
      cases neg with
      | false =>
        rw [show renderFilterRoot ps (Filter.logical .and false values)
              = renderFilterRootList ps values from rfl,
            show rootUnits (Filter.logical .and false values)
              = rootUnitsList values from rfl]
        exact renderFilterRootList_units ps values
      | true => simp [renderFilterRoot, rootUnits, appendParam]
    | or => simp [renderFilterRoot, rootUnits, appendParam]

theorem renderFilterRootList_units (ps : List (String × String)) (l : List Filter) :
    renderFilterRootList ps l = ps ++ (rootUnitsList l).map renderFilter := by
  cases l with
  | nil => simp [renderFilterRootList, rootUnitsList]
  | cons f fs =>
    rw [show renderFilterRootList ps (f :: fs)
          = renderFilterRootList (renderFilterRoot ps f) fs from rfl,
        renderFilterRoot_units ps f,
        renderFilterRootList_units (ps ++ (rootUnits f).map renderFilter) fs]
    simp [rootUnitsList]
end

end SqlToRest

namespace SqlToRest

mutual
/-- Whether a filter tree contains a ColumnFilter with a non-basic operator. -/
def hasNonBasicOperator : Filter → Bool
  | .column _ operator _ _ => !(allowedBasicOperators.contains operator)
  | .logical _ _ values => hasNonBasicOperatorList values

def hasNonBasicOperatorList : List Filter → Bool
  | [] => false
  | f :: fs => hasNonBasicOperator f || hasNonBasicOperatorList fs
end

def updateBasicMessage : String :=
  "UPDATE WHERE clause only supports basic operators: eq, neq, gt, gte, lt, lte"

def deleteBasicMessage : String :=
  "DELETE WHERE clause only supports basic operators: eq, neq, gt, gte, lt, lte"

mutual
theorem validateBasicFiltersUpdate_eq (f : Filter) :
    validateBasicFiltersUpdate f =
      if hasNonBasicOperator f then Except.error (PErr.unsupported updateBasicMessage)
      else Except.ok () := by
  cases f with
  | column c op neg v =>
    by_cases h : allowedBasicOperators.contains op <;>
      simp [validateBasicFiltersUpdate, hasNonBasicOperator, h, updateBasicMessage]
  | logical op neg values =>
    rw [show validateBasicFiltersUpdate (Filter.logical op neg values)
          = validateBasicFiltersUpdateList values from rfl,
        show hasNonBasicOperator (Filter.logical op neg values)
          = hasNonBasicOperatorList values from rfl]
    exact validateBasicFiltersUpdateList_eq values

theorem validateBasicFiltersUpdateList_eq (l : List Filter) :
    validateBasicFiltersUpdateList l =
      if hasNonBasicOperatorList l then Except.error (PErr.unsupported updateBasicMessage)
      else Except.ok () := by
  cases l with
  | nil => simp [validateBasicFiltersUpdateList, hasNonBasicOperatorList]
  | cons f fs =>
    rw [show validateBasicFiltersUpdateList (f :: fs)
          = (do validateBasicFiltersUpdate f; validateBasicFiltersUpdateList fs) from rfl,
        validateBasicFiltersUpdate_eq f, validateBasicFiltersUpdateList_eq fs]
    by_cases h : hasNonBasicOperator f <;>
      simp [hasNonBasicOperatorList, h, Bind.bind, Except.bind]
end

mutual
theorem validateBasicFiltersDelete_eq (f : Filter) :
    validateBasicFiltersDelete f =
      if hasNonBasicOperator f then Except.error (PErr.unsupported deleteBasicMessage)
      else Except.ok () := by
  cases f with
  | column c op neg v =>
    by_cases h : allowedBasicOperators.contains op <;>
      simp [validateBasicFiltersDelete, hasNonBasicOperator, h, deleteBasicMessage]
  | logical op neg values =>
    rw [show validateBasicFiltersDelete (Filter.logical op neg values)
          = validateBasicFiltersDeleteList values from rfl,
        show hasNonBasicOperator (Filter.logical op neg values)
          = hasNonBasicOperatorList values from rfl]
    exact validateBasicFiltersDeleteList_eq values

theorem validateBasicFiltersDeleteList_eq (l : List Filter) :
    validateBasicFiltersDeleteList l =
      if hasNonBasicOperatorList l then Except.error (PErr.unsupported deleteBasicMessage)
      else Except.ok () := by
  cases l with
  | nil => simp [validateBasicFiltersDeleteList, hasNonBasicOperatorList]
  | cons f fs =>
    rw [show validateBasicFiltersDeleteList (f :: fs)
          = (do validateBasicFiltersDelete f; validateBasicFiltersDeleteList fs) from rfl,
        validateBasicFiltersDelete_eq f, validateBasicFiltersDeleteList_eq fs]
    by_cases h : hasNonBasicOperator f <;>
      simp [hasNonBasicOperatorList, h, Bind.bind, Except.bind]
end

end SqlToRest

namespace SqlToRest

theorem mem_removeParam {p : String × String} {k : String}
    (ps : List (String × String)) (h : p.1 ≠ k) :
    p ∈ removeParam ps k ↔ p ∈ ps := by
  induction ps with
  | nil => simp [removeParam]
  | cons q rest ih =>
    by_cases hq : q.1 = k
    · rw [show removeParam (q :: rest) k = removeParam rest k by simp [removeParam, hq], ih]
      simp only [List.mem_cons]
      constructor
      · exact Or.inr
      · rintro (rfl | hp)
        · exact absurd hq h
        · exact hp
    · rw [show removeParam (q :: rest) k = q :: removeParam rest k by simp [removeParam, hq]]
      simp [ih]

theorem mem_setParam {p : String × String} {k v : String}
    (ps : List (String × String)) (h : p.1 ≠ k) :
    p ∈ setParam ps k v ↔ p ∈ ps := by
  induction ps with
  | nil =>
    simp only [setParam, List.mem_singleton, List.not_mem_nil, iff_false]
    rintro rfl
    exact h rfl
  | cons q rest ih =>
    by_cases hq : q.1 = k
    · rw [show setParam (q :: rest) k v = (k, v) :: removeParam rest k by
        simp [setParam, hq]]
      simp only [List.mem_cons]
      rw [mem_removeParam rest h]
      constructor
      · rintro (rfl | hp)
        · exact absurd rfl h
        · exact Or.inr hp
      · rintro (rfl | hp)
        · exact absurd hq h
        · exact Or.inr hp
    · rw [show setParam (q :: rest) k v = q :: setParam rest k v by simp [setParam, hq]]
      simp [ih]

theorem mem_setParam_self (ps : List (String × String)) (k v : String) :
    (k, v) ∈ setParam ps k v := by
  induction ps with
  | nil => simp [setParam]
  | cons q rest ih =>
    by_cases hq : q.1 = k
    · rw [show setParam (q :: rest) k v = (k, v) :: removeParam rest k by
        simp [setParam, hq]]
      exact List.mem_cons_self _ _
    · rw [show setParam (q :: rest) k v = q :: setParam rest k v by simp [setParam, hq]]
      exact List.mem_cons_of_mem _ ih

theorem fullPath_spec (r : HttpRequest) :
    (∃ t, r.fullPath = r.path ++ t) ∧ (r.fullPath = r.path ↔ r.params = []) ∧
      (r.params ≠ [] → r.fullPath = r.path ++ "?" ++ uriEncodeParams r.params) := by
  by_cases hp : r.params = []
  · refine ⟨⟨"", by simp [HttpRequest.fullPath, hp]⟩,
      by simp [HttpRequest.fullPath, hp], fun h => absurd hp h⟩
  · have hlen : r.params.length > 0 := List.length_pos.mpr hp
    have hfp : r.fullPath = r.path ++ "?" ++ uriEncodeParams r.params := by
      simp [HttpRequest.fullPath, hlen]
    have hone : ("?" : String).length = 1 := rfl
    have hne : r.fullPath ≠ r.path := by
      rw [hfp]
      intro h
      have hl := congrArg String.length h
      rw [String.length_append, String.length_append, hone] at hl
      omega
    exact ⟨⟨"?" ++ uriEncodeParams r.params, by rw [hfp, String.append_assoc]⟩,
      ⟨fun h => absurd h hne, fun h => absurd h hp⟩, fun _ => hfp⟩

end SqlToRest

namespace SqlToRest

theorem toList_append (a b : String) : (a ++ b).toList = a.toList ++ b.toList := rfl

theorem mk_toList (s : String) : String.mk s.toList = s := rfl

theorem splitDotAux_ne_nil (cs acc : List Char) : splitDotAux cs acc ≠ [] := by
  induction cs generalizing acc with
  | nil => simp [splitDotAux]
  | cons c cs ih =>
    by_cases h : c = '.'
    · simp [splitDotAux, h]
    · rw [show splitDotAux (c :: cs) acc = splitDotAux cs (c :: acc) by
        simp [splitDotAux, h]]
      exact ih _

theorem getLastD_congr {α : Type} {l : List α} (h : l ≠ []) (d1 d2 : α) :
    l.getLastD d1 = l.getLastD d2 := by
  cases l with
  | nil => exact absurd rfl h
  | cons a as => rw [List.getLastD_cons, List.getLastD_cons]

theorem splitDotAux_dotfree (t : List Char) (ht : ∀ c ∈ t, c ≠ '.') (acc : List Char) :
    splitDotAux t acc = [String.mk (acc.reverse ++ t)] := by
  induction t generalizing acc with
  | nil => simp [splitDotAux]
  | cons c cs ih =>
    have hc : c ≠ '.' := ht c (by simp)
    rw [show splitDotAux (c :: cs) acc = splitDotAux cs (c :: acc) by
      simp [splitDotAux, hc]]
    rw [ih (fun x hx => ht x (by simp [hx])) (c :: acc)]
    simp

theorem splitDotAux_last_dotfree (xs : List Char) (t : List Char)
    (ht : ∀ c ∈ t, c ≠ '.') (acc : List Char) :
    (splitDotAux (xs ++ '.' :: t) acc).getLastD "" = String.mk t := by
  induction xs generalizing acc with
  | nil =>
    rw [show ([] : List Char) ++ '.' :: t = '.' :: t from rfl]
    rw [show splitDotAux ('.' :: t) acc = String.mk acc.reverse :: splitDotAux t [] by
      simp [splitDotAux]]
    rw [splitDotAux_dotfree t ht []]
    simp [List.getLastD_cons]
  | cons c cs ih =>
    by_cases hc : c = '.'
    · subst hc
      rw [show ('.' :: cs) ++ '.' :: t = '.' :: (cs ++ '.' :: t) from rfl]
      rw [show splitDotAux ('.' :: (cs ++ '.' :: t)) acc
            = String.mk acc.reverse :: splitDotAux (cs ++ '.' :: t) [] by
        simp [splitDotAux]]
      rw [List.getLastD_cons]
      rw [getLastD_congr (splitDotAux_ne_nil (cs ++ '.' :: t) []) (String.mk acc.reverse) ""]
      exact ih []
    · rw [show (c :: cs) ++ '.' :: t = c :: (cs ++ '.' :: t) from rfl]
      rw [show splitDotAux (c :: (cs ++ '.' :: t)) acc
            = splitDotAux (cs ++ '.' :: t) (c :: acc) by simp [splitDotAux, hc]]
      exact ih (c :: acc)

theorem joinDot_append_single (pre : List String) (t : String) (h : pre ≠ []) :
    joinDot (pre ++ [t]) = joinDot pre ++ "." ++ t := by
  induction pre with
  | nil => exact absurd rfl h
  | cons s rest ih =>
    cases rest with
    | nil => simp [joinDot]
    | cons u us =>
      rw [show (s :: u :: us) ++ [t] = s :: ((u :: us) ++ [t]) from rfl]
      rw [show (u :: us) ++ [t] = u :: (us ++ [t]) from rfl]
      rw [show joinDot (s :: u :: (us ++ [t])) = s ++ "." ++ joinDot (u :: (us ++ [t])) from rfl]
      rw [show u :: (us ++ [t]) = (u :: us) ++ [t] from rfl]
      rw [ih (by simp)]
      rw [show joinDot (s :: u :: us) = s ++ "." ++ joinDot (u :: us) from rfl]
      simp [String.append_assoc]

theorem extractColumnName_qualified (pre : List String) (t : String)
    (ht : ∀ c ∈ t.toList, c ≠ '.') :
    extractColumnName ((pre ++ [t]).map RawField.strField) = t := by
  have hmapAll : ∀ (l : List String), (l.map RawField.strField).map
      (fun f => match f with | .strField s => s | .nonString => "") = l := by
    intro l
    induction l with
    | nil => rfl
    | cons a l ih => simp [ih]
  have hmap := hmapAll (pre ++ [t])
  rw [extractColumnName]
  simp only [hmap]
  cases pre with
  | nil =>
    rw [show ([] : List String) ++ [t] = [t] from rfl,
        show joinDot [t] = t from rfl, splitDot,
        splitDotAux_dotfree t.toList ht []]
    simp [mk_toList]
  | cons p pre =>
    rw [joinDot_append_single (p :: pre) t (by simp), splitDot]
    rw [show (joinDot (p :: pre) ++ "." ++ t).toList
          = (joinDot (p :: pre)).toList ++ '.' :: t.toList by
      rw [toList_append, toList_append, List.append_assoc]
      rfl]
    rw [splitDotAux_last_dotfree _ t.toList ht []]
    exact mk_toList t

theorem splitDot_all_dots (cs : List Char) (h : ∀ c ∈ cs, c = '.') :
    (splitDotAux cs []).getLastD "" = "" := by
  induction cs with
  | nil => rfl
  | cons c cs ih =>
    have hc : c = '.' := h c (by simp)
    subst hc
    rw [show splitDotAux ('.' :: cs) [] = String.mk [] :: splitDotAux cs [] by
      simp [splitDotAux]]
    rw [List.getLastD_cons]
    rw [getLastD_congr (splitDotAux_ne_nil cs []) (String.mk []) ""]
    exact ih (fun x hx => h x (by simp [hx]))

theorem joinDot_empty_strings (l : List String) (h : ∀ s ∈ l, s = "") :
    ∀ c ∈ (joinDot l).toList, c = '.' := by
  induction l with
  | nil => intro c hc; simp [joinDot] at hc
  | cons s rest ih =>
    cases rest with
    | nil =>
      have hs : s = "" := h s (by simp)
      intro c hc
      rw [show joinDot [s] = s from rfl, hs] at hc
      simp at hc
    | cons u us =>
      intro c hc
      have hs : s = "" := h s (by simp)
      rw [show joinDot (s :: u :: us) = s ++ "." ++ joinDot (u :: us) from rfl, hs] at hc
      rw [show ("" ++ "." ++ joinDot (u :: us)).toList
            = '.' :: (joinDot (u :: us)).toList from rfl] at hc
      rcases List.mem_cons.mp hc with rfl | hc
      · rfl
      · exact ih (fun x hx => h x (by simp [hx])) c hc

theorem extractColumnName_no_string (fields : List RawField)
    (h : ∀ f ∈ fields, f = RawField.nonString) :
    extractColumnName fields = "" := by
  rw [extractColumnName]
  have hmap : ∀ s ∈ fields.map
      (fun f => match f with | .strField s => s | .nonString => ""), s = "" := by
    intro s hs
    rcases List.mem_map.mp hs with ⟨f, hf, hfs⟩
    rw [h f hf] at hfs
    exact hfs.symm
  simp only [splitDot]
  exact splitDot_all_dots _ (joinDot_empty_strings _ hmap)

end SqlToRest

namespace SqlToRest

theorem renderFilterRootList_foldl (l : List Filter) :
    ∀ ps, renderFilterRootList ps l = l.foldl renderFilterRoot ps := by
  induction l with
  | nil => intro ps; rfl
  | cons f fs ih =>
    intro ps
    rw [show renderFilterRootList ps (f :: fs)
          = renderFilterRootList (renderFilterRoot ps f) fs from rfl, ih]
    rfl

/-- C1: at the root, `renderFilterRoot` emits each child of a non-negated
logical `and` recursively through the same routine (so nested non-negated
`and` children are flattened as well, which the `rootUnits` equation makes
precise), and appends every other filter as exactly one `(key, value)`
pair. -/
theorem C1_renderFilterRoot_flattening :
    ∀ (ps : List (String × String)) (f : Filter),
      renderFilterRoot ps f = ps ++ (rootUnits f).map renderFilter ∧
      (∀ values, f = Filter.logical .and false values →
        renderFilterRoot ps f = values.foldl renderFilterRoot ps) ∧
      ((∀ values, f ≠ Filter.logical .and false values) →
        renderFilterRoot ps f = ps ++ [renderFilter f]) := by
  intro ps f
  refine ⟨renderFilterRoot_units ps f, ?_, ?_⟩
  · rintro values rfl
    rw [show renderFilterRoot ps (Filter.logical .and false values)
          = renderFilterRootList ps values from rfl]
    exact renderFilterRootList_foldl values ps
  · intro hne
    cases f with
    | column c op neg v => rfl
    | logical op neg values =>
      cases op with
      | and =>
        cases neg with
        | false => exact absurd rfl (hne values)
        | true => rfl
      | or => rfl

/-- C1 witness: a nested non-negated `and` flattens into three parameters and
a negated `and` emits exactly one pair. -/
theorem C1_witness :
    renderFilterRoot [] (Filter.logical .and false
      [Filter.logical .and false
        [Filter.column "a" .eq false (.atom (.i 1)),
         Filter.column "b" .eq false (.atom (.i 2))],
       Filter.column "c" .eq true (.atom (.i 3))])
      = [("a", "eq.1"), ("b", "eq.2"), ("c", "not.eq.3")] ∧
    renderFilterRoot [] (Filter.logical .and true
      [Filter.column "a" .eq false (.atom (.i 1)),
       Filter.column "b" .eq false (.atom (.i 2))])
      = [("and", "not.(a.eq.1,b.eq.2)")] := by
  constructor
  · rw [(C1_renderFilterRoot_flattening [] _).1]
    rfl
  · rw [(C1_renderFilterRoot_flattening [] _).2.2 (by intro values h; simp at h)]
    rfl

/-- The containment predicate of claim C2: the tree has a ColumnFilter whose
operator is outside the basic six. -/
inductive ContainsNonBasic : Filter → Prop where
  | column (c : String) (op : FilterOp) (neg : Bool) (v : FilterValue)
      (h : op ∉ allowedBasicOperators) :
      ContainsNonBasic (.column c op neg v)
  | logical (op : LogicalOp) (neg : Bool) (values : List Filter) (f : Filter)
      (hf : f ∈ values) (h : ContainsNonBasic f) :
      ContainsNonBasic (.logical op neg values)

mutual
theorem hasNonBasic_iff (f : Filter) :
    hasNonBasicOperator f = true ↔ ContainsNonBasic f := by
  cases f with
  | column c op neg v =>
    rw [show hasNonBasicOperator (Filter.column c op neg v)
          = !(allowedBasicOperators.contains op) from rfl]
    constructor
    · intro h
      refine ContainsNonBasic.column c op neg v ?_
      simpa using h
    · intro h
      cases h with
      | column _ _ _ _ hop => simpa using hop
  | logical op neg values =>
    rw [show hasNonBasicOperator (Filter.logical op neg values)
          = hasNonBasicOperatorList values from rfl]
    rw [hasNonBasicList_iff values]
    constructor
    · rintro ⟨f, hf, hc⟩
      exact ContainsNonBasic.logical op neg values f hf hc
    · intro h
      cases h with
      | logical _ _ _ f hf hc => exact ⟨f, hf, hc⟩

theorem hasNonBasicList_iff (l : List Filter) :
    hasNonBasicOperatorList l = true ↔ ∃ f ∈ l, ContainsNonBasic f := by
  cases l with
  | nil =>
    rw [show hasNonBasicOperatorList [] = false from rfl]
    simp
  | cons f fs =>
    rw [show hasNonBasicOperatorList (f :: fs)
          = (hasNonBasicOperator f || hasNonBasicOperatorList fs) from rfl]
    rw [Bool.or_eq_true, hasNonBasic_iff f, hasNonBasicList_iff fs]
    constructor
    · rintro (hc | ⟨g, hg, hc⟩)
      · exact ⟨f, by simp, hc⟩
      · exact ⟨g, by simp [hg], hc⟩
    · rintro ⟨g, hg, hc⟩
      rcases List.mem_cons.mp hg with rfl | hg
      · exact Or.inl hc
      · exact Or.inr ⟨g, hg, hc⟩
end

/-- C2: the UPDATE/DELETE WHERE validators fail (with `UnsupportedError`) if
and only if the lowered filter tree contains a ColumnFilter whose operator is
outside {eq, neq, gt, gte, lt, lte}; LogicalFilter nodes are only traversed,
so trees without such a column filter — e.g. a negated `or` of basic
predicates — are accepted. -/
theorem C2_where_validator (f : Filter) :
    ((∃ e, validateBasicFiltersUpdate f = .error e) ↔ ContainsNonBasic f) ∧
    ((∃ e, validateBasicFiltersDelete f = .error e) ↔ ContainsNonBasic f) ∧
    (¬ ContainsNonBasic f →
      validateBasicFiltersUpdate f = .ok () ∧ validateBasicFiltersDelete f = .ok ()) ∧
    (ContainsNonBasic f →
      validateBasicFiltersUpdate f = .error (.unsupported updateBasicMessage) ∧
      validateBasicFiltersDelete f = .error (.unsupported deleteBasicMessage)) := by
  rw [validateBasicFiltersUpdate_eq f, validateBasicFiltersDelete_eq f, ← hasNonBasic_iff f]
  by_cases h : hasNonBasicOperator f = true <;> simp [h]

/-- C2 witness: a negated `or` of basic predicates passes both validators,
and a `like` column filter is rejected. -/
theorem C2_witness :
    validateBasicFiltersUpdate (Filter.logical .or true
      [Filter.column "a" .eq false (.atom (.i 1)),
       Filter.column "b" .lt false (.atom (.i 2))]) = .ok () ∧
    validateBasicFiltersDelete (Filter.logical .or true
      [Filter.column "a" .eq false (.atom (.i 1)),
       Filter.column "b" .lt false (.atom (.i 2))]) = .ok () ∧
    validateBasicFiltersUpdate (Filter.column "a" .like false (.atom (.s "x")))
      = .error (.unsupported updateBasicMessage) := by
  have hok := (C2_where_validator (Filter.logical .or true
      [Filter.column "a" .eq false (.atom (.i 1)),
       Filter.column "b" .lt false (.atom (.i 2))])).2.2.1
    (fun hc => by
      have := (hasNonBasic_iff _).mpr hc
      exact absurd this (by decide))
  have hbad := (C2_where_validator
      (Filter.column "a" .like false (.atom (.s "x")))).2.2.2
    (ContainsNonBasic.column _ _ _ _ (by decide))
  exact ⟨hok.1, hok.2, hbad.1⟩

/-- C3: every rendered `HttpRequest` has a `fullPath` that extends `path`;
it equals `path` exactly when `params` is empty, and otherwise it is
`path + "?" + encoded params`. -/
theorem C3_fullPath_invariant (stmt : Statement) :
    (∃ t, (renderHttp stmt).fullPath = (renderHttp stmt).path ++ t) ∧
    ((renderHttp stmt).fullPath = (renderHttp stmt).path ↔ (renderHttp stmt).params = []) ∧
    ((renderHttp stmt).params ≠ [] →
      (renderHttp stmt).fullPath
        = (renderHttp stmt).path ++ "?" ++ uriEncodeParams (renderHttp stmt).params) :=
  fullPath_spec (renderHttp stmt)

/-- C3 witness: a SELECT with one filter parameter, and a bare `SELECT *`. -/
theorem C3_witness :
    (renderHttp (Statement.select
      { «from» := "books"
        targets := [.column "*" none none]
        filter := some (.column "id" .eq false (.atom (.i 1)))
        sorts := none
        limit := none })).fullPath = "/books?id=eq.1" ∧
    (renderHttp (Statement.select
      { «from» := "books"
        targets := [.column "*" none none]
        filter := none
        sorts := none
        limit := none })).fullPath = "/books" := by
  constructor
  · rw [(C3_fullPath_invariant _).2.2 (by decide)]
    rfl
  · rw [(C3_fullPath_invariant (Statement.select
      { «from» := "books"
        targets := [.column "*" none none]
        filter := none
        sorts := none
        limit := none })).2.1.mpr (by rfl)]
    rfl

/-- C4: `renderHttp` turns an Insert into a POST whose body is the single
column→scalar object when there is exactly one value row, and the array of
such objects when there are several. -/
theorem C4_insert_body_shape (i : Insert) :
    (renderHttp (.insert i)).method = Method.post ∧
    (∀ row, i.values = [row] →
      (renderHttp (.insert i)).body = some (Body.obj (rowToObj i.columns row))) ∧
    (1 < i.values.length →
      (renderHttp (.insert i)).body = some (Body.arr (i.values.map (rowToObj i.columns)))) := by
  obtain ⟨into, columns, values, returning⟩ := i
  refine ⟨rfl, ?_, ?_⟩
  · rintro row rfl
    rfl
  · intro hlen
    match values, hlen with
    | a :: b :: t, _ => rfl

/-- C4 witness: one row gives an object body, two rows give an array body. -/
theorem C4_witness :
    (renderHttp (.insert
      { into := "books"
        columns := ["title"]
        values := [[.s "X"]]
        returning := none })).body
      = some (Body.obj (rowToObj ["title"] [.s "X"])) ∧
    (renderHttp (.insert
      { into := "books"
        columns := ["title"]
        values := [[.s "X"], [.s "Y"]]
        returning := none })).body
      = some (Body.arr ([[Scalar.s "X"], [Scalar.s "Y"]].map (rowToObj ["title"]))) :=
  ⟨(C4_insert_body_shape _).2.1 [.s "X"] rfl,
   (C4_insert_body_shape _).2.2 (by decide)⟩

/-- C6: after a successful parse, `processSql` rejects an empty statement
list and a list of two or more with the spec's two `UnsupportedError`
messages, and otherwise processes exactly the single statement. -/
theorem C6_single_statement_guard (stmts : List RawStmt) :
    (stmts = [] →
      processSql stmts = .error (.unsupported "Expected a statement, but received none")) ∧
    (1 < stmts.length →
      processSql stmts = .error (.unsupported "Expected a single statement, but received multiple")) ∧
    (∀ s, stmts = [s] → processSql stmts = processStatement s) := by
  refine ⟨?_, ?_, ?_⟩
  · rintro rfl; rfl
  · intro h
    match stmts, h with
    | a :: b :: rest, _ =>
      simp only [processSql, List.length_cons]
      rw [if_neg (by omega), if_pos (by omega)]
  · rintro s rfl; rfl

/-- C6 witness: the three cases at concrete statement lists. -/
theorem C6_witness :
    processSql [] = .error (.unsupported "Expected a statement, but received none") ∧
    processSql [RawStmt.explainStmt, RawStmt.explainStmt]
      = .error (.unsupported "Expected a single statement, but received multiple") ∧
    processSql [RawStmt.explainStmt] = processStatement RawStmt.explainStmt :=
  ⟨(C6_single_statement_guard []).1 rfl,
   (C6_single_statement_guard _).2.1 (by decide),
   (C6_single_statement_guard _).2.2 _ rfl⟩

end SqlToRest

namespace SqlToRest

/-- C7: when `limit.count` is defined — including 0 — `formatSelect` emits a
`limit=N` parameter, and likewise `offset=N` for a defined `limit.offset`;
zero is rendered literally. -/
theorem C7_limit_offset_emitted (s : Select) (l : Limit) (hl : s.limit = some l) :
    (∀ n, l.count = some n → ("limit", toString n) ∈ (formatSelect s).params) ∧
    (∀ m, l.offset = some m → ("offset", toString m) ∈ (formatSelect s).params) := by
  obtain ⟨count, offset⟩ := l
  simp only [formatSelect, hl]
  constructor
  · intro n hn
    subst hn
    cases offset with
    | none => exact mem_setParam_self _ _ _
    | some m =>
      have hne : ("limit", toString n).1 ≠ "offset" := by
        intro hx
        have hx2 : ("limit" : String) = "offset" := hx
        exact absurd hx2 (by decide)
      rw [mem_setParam _ hne]
      exact mem_setParam_self _ _ _
  · intro m hm
    subst hm
    cases count with
    | none => exact mem_setParam_self _ _ _
    | some n => exact mem_setParam_self _ _ _

/-- C7 witness: `LIMIT 0 OFFSET 0` emits both parameters literally. -/
theorem C7_witness :
    ("limit", toString (0 : Nat)) ∈ (formatSelect
      { «from» := "books"
        targets := [.column "*" none none]
        filter := none
        sorts := none
        limit := some { count := some 0, offset := some 0 } }).params ∧
    ("offset", toString (0 : Nat)) ∈ (formatSelect
      { «from» := "books"
        targets := [.column "*" none none]
        filter := none
        sorts := none
        limit := some { count := some 0, offset := some 0 } }).params ∧
    (formatSelect
      { «from» := "books"
        targets := [.column "*" none none]
        filter := none
        sorts := none
        limit := some { count := some 0, offset := some 0 } }).params
      = [("limit", "0"), ("offset", "0")] :=
  ⟨(C7_limit_offset_emitted _ _ rfl).1 0 rfl,
   (C7_limit_offset_emitted _ _ rfl).2 0 rfl,
   rfl⟩

end SqlToRest

namespace SqlToRest

/-- The parameters contributed by the optional filter alone. -/
def filterParams : Option Filter → List (String × String)
  | some f => renderFilterRoot [] f
  | none => []

/-- The `select.targets` stage of `formatSelect`. -/
def selectStage (targets : List Target) : List (String × String) :=
  if selectParamNeeded targets then setParam [] "select" (renderTargets targets) else []

/-- The `select.filter` stage of `formatSelect`. -/
def filterStage (ps : List (String × String)) (filter : Option Filter) :
    List (String × String) :=
  match filter with
  | some f => renderFilterRoot ps f
  | none => ps

/-- The `select.sorts` stage of `formatSelect`. -/
def orderStage (ps : List (String × String)) (sorts : Option (List «Sort»)) :
    List (String × String) :=
  match sorts with
  | some sorts =>
    let columns := sorts.map renderSort
    if columns.length > 0 then setParam ps "order" (String.intercalate "," columns) else ps
  | none => ps

/-- The `select.limit` stage of `formatSelect`. -/
def limitStage (ps : List (String × String)) (limit : Option Limit) :
    List (String × String) :=
  match limit with
  | some limit =>
    let ps := match limit.count with | some n => setParam ps "limit" (toString n) | none => ps
    match limit.offset with | some n => setParam ps "offset" (toString n) | none => ps
  | none => ps

theorem formatSelect_params (s : Select) :
    (formatSelect s).params =
      limitStage (orderStage (filterStage (selectStage s.targets) s.filter) s.sorts)
        s.limit := rfl

theorem exists_select_key_setParam_other {ps : List (String × String)} {k v : String}
    (hk : k ≠ "select") :
    (∃ w, ("select", w) ∈ setParam ps k v) ↔ ∃ w, ("select", w) ∈ ps := by
  constructor
  · rintro ⟨w, hw⟩
    exact ⟨w, (mem_setParam ps (Ne.symm hk)).mp hw⟩
  · rintro ⟨w, hw⟩
    exact ⟨w, (mem_setParam ps (Ne.symm hk)).mpr hw⟩

theorem select_key_limitStage (ps : List (String × String)) (limit : Option Limit) :
    (∃ w, ("select", w) ∈ limitStage ps limit) ↔ ∃ w, ("select", w) ∈ ps := by
  cases limit with
  | none => exact Iff.rfl
  | some l =>
    obtain ⟨c, o⟩ := l
    cases c <;> cases o <;> simp only [limitStage] <;>
      repeat rw [exists_select_key_setParam_other (by decide)]

theorem select_key_orderStage (ps : List (String × String)) (sorts : Option (List «Sort»)) :
    (∃ w, ("select", w) ∈ orderStage ps sorts) ↔ ∃ w, ("select", w) ∈ ps := by
  cases sorts with
  | none => exact Iff.rfl
  | some l =>
    simp only [orderStage]
    by_cases h : (l.map renderSort).length > 0
    · rw [if_pos h, exists_select_key_setParam_other (by decide)]
    · rw [if_neg h]

theorem renderFilterRoot_base (ps : List (String × String)) (f : Filter) :
    renderFilterRoot ps f = ps ++ renderFilterRoot [] f := by
  rw [renderFilterRoot_units ps f, renderFilterRoot_units [] f]
  simp

theorem select_key_filterStage (ps : List (String × String)) (filter : Option Filter)
    (hf : ∀ q ∈ filterParams filter, q.1 ≠ "select") :
    (∃ w, ("select", w) ∈ filterStage ps filter) ↔ ∃ w, ("select", w) ∈ ps := by
  cases filter with
  | none => exact Iff.rfl
  | some f =>
    simp only [filterStage]
    rw [renderFilterRoot_base ps f]
    constructor
    · rintro ⟨w, hw⟩
      rcases List.mem_append.mp hw with hw | hw
      · exact ⟨w, hw⟩
      · exact absurd rfl (hf ("select", w) (by simpa [filterParams] using hw))
    · rintro ⟨w, hw⟩
      exact ⟨w, List.mem_append.mpr (Or.inl hw)⟩

theorem select_key_selectStage (targets : List Target) :
    (∃ w, ("select", w) ∈ selectStage targets) ↔ selectParamNeeded targets = true := by
  by_cases h : selectParamNeeded targets = true
  · rw [selectStage, if_pos h]
    simp only [h, iff_true]
    exact ⟨renderTargets targets, by simp [setParam]⟩
  · rw [selectStage, if_neg h]
    simp [h]

theorem select_key_iff (s : Select)
    (hf : ∀ q ∈ filterParams s.filter, q.1 ≠ "select") :
    (∃ w, ("select", w) ∈ (formatSelect s).params) ↔
      selectParamNeeded s.targets = true := by
  rw [formatSelect_params, select_key_limitStage, select_key_orderStage,
    select_key_filterStage _ _ hf, select_key_selectStage]

theorem selectParamNeeded_iff (targets : List Target) :
    selectParamNeeded targets = true ↔
      ¬ (targets = [] ∨ ∃ a c, targets = [Target.column "*" a c]) := by
  cases targets with
  | nil => simp [selectParamNeeded]
  | cons t rest =>
    cases t with
    | column c a k =>
      cases rest with
      | nil =>
        by_cases hc : c = "*"
        · subst hc
          simp [selectParamNeeded]
        · simp [selectParamNeeded, hc]
      | cons u us => simp [selectParamNeeded]
    | resource name ts => simp [selectParamNeeded]
    | agg fn c a => simp [selectParamNeeded]

/-- C5 counterexample: the guard in `formatSelect` never inspects alias or
cast, so a single ColumnTarget on `*` that carries an alias — which is not
the canonical `[ColumnTarget "*"]` — still suppresses the `select`
parameter, contradicting the claimed "if and only if". -/
theorem C5_counterexample :
    (formatSelect
      { «from» := "books"
        targets := [.column "*" (some "x") none]
        filter := none
        sorts := none
        limit := none }).params = [] ∧
    [Target.column "*" (some "x") none] ≠ [Target.column "*" none none] := by
  exact ⟨rfl, by simp⟩

/-- C5 (amended): provided no filter contributes a parameter keyed `select`,
`formatSelect` omits the `select` parameter exactly when `targets` is empty
or is a one-element list whose head is a ColumnTarget on `*` (its alias and
cast are not examined); in particular `select * from books` renders with no
parameters. -/
theorem C5_select_param_amended (s : Select)
    (hf : ∀ q ∈ filterParams s.filter, q.1 ≠ "select") :
    (∃ w, ("select", w) ∈ (formatSelect s).params) ↔
      ¬ (s.targets = [] ∨ ∃ a c, s.targets = [Target.column "*" a c]) := by
  rw [select_key_iff s hf]
  exact selectParamNeeded_iff s.targets

/-- C5 witness: the canonical `SELECT * FROM books` produces a GET with no
parameters and in particular no `select` parameter. -/
theorem C5_witness :
    ¬ (∃ w, ("select", w) ∈ (formatSelect
      { «from» := "books"
        targets := [.column "*" none none]
        filter := none
        sorts := none
        limit := none }).params) ∧
    (formatSelect
      { «from» := "books"
        targets := [.column "*" none none]
        filter := none
        sorts := none
        limit := none }).params = [] ∧
    (formatSelect
      { «from» := "books"
        targets := [.column "*" none none]
        filter := none
        sorts := none
        limit := none }).method = Method.get := by
  refine ⟨?_, rfl, rfl⟩
  intro hx
  exact (C5_select_param_amended _ (by intro q hq; simp [filterParams] at hq)).mp hx
    (Or.inr ⟨none, none, rfl⟩)

end SqlToRest

namespace SqlToRest

/-- A RETURNING list of qualified column references: each entry contributes
its qualifier segments followed by the column name. -/
def qualifiedRetList (refs : List (List String × String)) : List RawRetTarget :=
  refs.map fun r => RawRetTarget.resTarget (.columnRef ((r.1 ++ [r.2]).map RawField.strField))

theorem processReturningEntries_qualified
    (refs : List (List String × String))
    (h : ∀ r ∈ refs, r.2 ≠ "" ∧ ∀ c ∈ r.2.toList, c ≠ '.') :
    processReturningEntries (qualifiedRetList refs) = .ok (refs.map (·.2)) := by
  induction refs with
  | nil => rfl
  | cons r rest ih =>
    have hr := h r (List.mem_cons_self r rest)
    have ihr := ih (fun x hx => h x (List.mem_cons_of_mem r hx))
    simp only [qualifiedRetList, List.map_cons] at ihr ⊢
    simp only [processReturningEntries]
    rw [extractColumnName_qualified r.1 r.2 hr.2, ihr]
    simp [hr.1, Bind.bind, Except.bind]

/-- C8: the RETURNING loop shared by the INSERT/UPDATE/DELETE processors
keeps only the last name segment of every qualified column reference, and
the INSERT and UPDATE processors forward exactly those last segments in
their `returning` list. -/
theorem C8_returning_last_segment
    (refs : List (List String × String))
    (h : ∀ r ∈ refs, r.2 ≠ "" ∧ ∀ c ∈ r.2.toList, c ≠ '.') :
    processReturningEntries (qualifiedRetList refs) = .ok (refs.map (·.2)) ∧
    (∀ table : String,
      processInsertStatement
        { relation := some table
          cols := none
          selectStmt := none
          returningList := some (qualifiedRetList refs)
          onConflictClause := false }
      = .ok { into := table, columns := [], values := [],
              returning := some (refs.map (·.2)) }) ∧
    (∀ (table col : String) (v : Int),
      processUpdateStatement
        { relation := some table
          targetList := some [RawSetTarget.resTarget (some col) (.aConst (.ival v))]
          whereClause := none
          returningList := some (qualifiedRetList refs) }
      = .ok { table := table, set := [(col, Scalar.i v)], filter := none,
              returning := some (refs.map (·.2)) }) := by
  have hq := processReturningEntries_qualified refs h
  refine ⟨hq, ?_, ?_⟩
  · intro table
    simp only [processInsertStatement, processReturningList, hq]
    rfl
  · intro table col v
    simp only [processUpdateStatement, processReturningList, hq]
    rfl

/-- C8 witness: `RETURNING t.col` keeps `col`, in the shared loop and through
the INSERT processor. -/
theorem C8_witness :
    processReturningEntries (qualifiedRetList [(["t"], "col")]) = .ok ["col"] ∧
    processInsertStatement
        { relation := some "books"
          cols := none
          selectStmt := none
          returningList := some (qualifiedRetList [(["t"], "col")])
          onConflictClause := false }
      = .ok { into := "books", columns := [], values := [], returning := some ["col"] } := by
  have hone : ∀ r ∈ [((["t"], "col") : List String × String)],
      r.2 ≠ "" ∧ ∀ c ∈ r.2.toList, c ≠ '.' := by
    intro r hr
    rw [List.mem_singleton.mp hr]
    exact ⟨by decide, by decide⟩
  exact ⟨(C8_returning_last_segment [(["t"], "col")] hone).1,
         (C8_returning_last_segment [(["t"], "col")] hone).2.1 "books"⟩

/-- C9: an INSERT whose parse tree yields zero value rows — the inner select
node absent, or present with an empty `valuesLists` — processes successfully
with `values = []`, and an Insert with no rows renders as a POST whose body
is the empty JSON array, not an object. -/
theorem C9_zero_row_insert (t : String) (sel : Option RawInsertSelect)
    (hsel : sel = none ∨ sel = some { valuesLists := some [] }) :
    processInsertStatement
        { relation := some t
          cols := none
          selectStmt := sel
          returningList := none
          onConflictClause := false }
      = .ok { into := t, columns := [], values := [], returning := none } ∧
    (∀ i : Insert, i.values = [] →
      (renderHttp (.insert i)).body = some (Body.arr []) ∧
      (renderHttp (.insert i)).method = Method.post) := by
  constructor
  · rcases hsel with rfl | rfl <;> rfl
  · rintro ⟨into, columns, values, returning⟩ hv
    cases hv
    exact ⟨rfl, rfl⟩

/-- C9 witness: the absent-select INSERT and its rendering. -/
theorem C9_witness :
    processInsertStatement
        { relation := some "books"
          cols := none
          selectStmt := none
          returningList := none
          onConflictClause := false }
      = .ok { into := "books", columns := [], values := [], returning := none } ∧
    (renderHttp (.insert { into := "books", columns := [], values := [], returning := none })).body
      = some (Body.arr []) :=
  ⟨(C9_zero_row_insert "books" none (Or.inl rfl)).1,
   ((C9_zero_row_insert "books" none (Or.inl rfl)).2 _ rfl).1⟩

/-- C10: a RETURNING entry whose ColumnRef has no String segment extracts an
empty column name and is silently dropped; a list of only such entries yields
`returning = some []`, which the renderer treats exactly like no RETURNING —
no `select` parameter is emitted. -/
theorem C10_starless_returning_dropped :
    (∀ fields : List RawField, (∀ f ∈ fields, f = RawField.nonString) →
      extractColumnName fields = "") ∧
    (∀ entries : List (List RawField),
      (∀ e ∈ entries, ∀ f ∈ e, f = RawField.nonString) →
      processReturningEntries (entries.map fun e => RawRetTarget.resTarget (.columnRef e))
        = .ok []) ∧
    (∀ i : Insert,
      formatInsert { i with returning := some [] } = formatInsert { i with returning := none }) := by
  refine ⟨fun fields h => extractColumnName_no_string fields h, ?_, ?_⟩
  · intro entries hent
    induction entries with
    | nil => rfl
    | cons e rest ih =>
      have he := hent e (List.mem_cons_self e rest)
      have ihr := ih (fun x hx => hent x (List.mem_cons_of_mem e hx))
      simp only [List.map_cons, processReturningEntries]
      rw [extractColumnName_no_string e he, ihr]
      simp [Bind.bind, Except.bind]
  · rintro ⟨into, columns, values, returning⟩
    rfl

/-- C10 witness: `RETURNING *` (a lone star field) is dropped and the
rendering carries no `select` parameter. -/
theorem C10_witness :
    extractColumnName [RawField.nonString] = "" ∧
    processReturningEntries [RawRetTarget.resTarget (.columnRef [RawField.nonString])]
      = .ok [] ∧
    formatInsert { into := "books", columns := ["t"], values := [[.s "X"]], returning := some [] }
      = formatInsert { into := "books", columns := ["t"], values := [[.s "X"]], returning := none } := by
  refine ⟨C10_starless_returning_dropped.1 _ (fun f hf => List.mem_singleton.mp hf), ?_, ?_⟩
  · exact C10_starless_returning_dropped.2.1 [[RawField.nonString]]
      (fun e he => by
        rw [List.mem_singleton.mp he]
        exact fun f hf => List.mem_singleton.mp hf)
  · exact C10_starless_returning_dropped.2.2
      { into := "books", columns := ["t"], values := [[.s "X"]], returning := some [] }

end SqlToRest
